import Mathlib

/-!
Verification of the enterprise-data-intelligence ingestion-analysis pipeline.

The development shallowly embeds the parts of the repository that the
claims concern:

* the MongoDB initialization script `docker/init-mongo/create-indexes.js`
  (embedded verbatim as a list of index definitions);
* the frontend Zustand filter store `frontend/src/stores/filterStore.ts`
  together with the `ArticleFilters` type from `frontend/src/types`;
* the ingestion pipeline (Normalizer, Analysis Requester, Pipeline
  Orchestrator).  The Python implementation of these components is not
  part of the repository snapshot (only its contracts, data-model
  documents and the design spec are), so those components are modelled
  from the spec, as indicated by the doc comment of each such definition.

Text is modelled as `List Char`; timestamps as `Nat`; machine numbers as
`Int`/`Nat` (no overflow is relevant anywhere in this code).
-/

namespace DataIntel

/-! ### MongoDB index script (docker/init-mongo/create-indexes.js) -/

/-- Key ordering / kind of a single field inside a MongoDB index
specification: ascending (`1`), descending (`-1`) or text (`"text"`). -/
inductive IndexKey where
  | asc
  | desc
  | text
deriving DecidableEq, Repr

/-- One `db.articles.createIndex(keys, options)` call: the ordered key
document, plus the options used by the script (`unique`, `name`,
`weights`). -/
structure IndexDef where
  keys : List (String × IndexKey)
  unique : Bool := false
  name : String
  weights : List (String × Nat) := []
deriving DecidableEq, Repr

/-- The exact sequence of `createIndex` calls performed on the `articles`
collection by `docker/init-mongo/create-indexes.js` (lines 9-26). -/
def createIndexCalls : List IndexDef :=
  [ { keys := [("url", .asc)], unique := true, name := "url_unique" }
  , { keys := [("publishDate", .desc)], name := "publishDate_desc" }
  , { keys := [("classification", .asc)], name := "classification_idx" }
  , { keys := [("sentimentScore", .asc)], name := "sentimentScore_idx" }
  , { keys := [("source", .asc)], name := "source_idx" }
  , { keys := [("status", .asc)], name := "status_idx" }
  , { keys := [("publishDate", .desc), ("classification", .asc), ("sentimentScore", .asc)],
      name := "filter_compound" }
  , { keys := [("title", .text), ("content", .text)],
      name := "fulltext_search", weights := [("title", 10), ("content", 1)] } ]

/-! ### Frontend filter store (frontend/src/stores/filterStore.ts) -/

/-- `dateRange` sub-object of `ArticleFilters`; the source fields are
`start` and `end` (`end` is a reserved word in Lean, hence `stop`).
Dates are modelled as integers. -/
structure DateRange where
  start : Option Int
  stop : Option Int
deriving DecidableEq, Repr

/-- The `ArticleFilters` interface from `frontend/src/types`. -/
structure ArticleFilters where
  classification : Option String
  sentimentRange : Int × Int
  dateRange : DateRange
  searchQuery : String
deriving DecidableEq, Repr

/-- `defaultFilters` from `filterStore.ts`. -/
def defaultFilters : ArticleFilters :=
  { classification := none
  , sentimentRange := (1, 10)
  , dateRange := { start := none, stop := none }
  , searchQuery := "" }

/-- A `Partial<ArticleFilters>` update object: each top-level field is
either absent (`none`) or present with a replacement value. -/
structure FilterUpdate where
  classification : Option (Option String) := none
  sentimentRange : Option (Int × Int) := none
  dateRange : Option DateRange := none
  searchQuery : Option String := none
deriving DecidableEq, Repr

/-- The `setFilters` action of `useFilterStore`:
`set((state) => ({ filters: { ...state.filters, ...newFilters } }))`.
A JavaScript object spread replaces exactly the top-level fields present
in the update and keeps all others. -/
def setFilters (state : ArticleFilters) (newFilters : FilterUpdate) : ArticleFilters :=
  { classification := newFilters.classification.getD state.classification
  , sentimentRange := newFilters.sentimentRange.getD state.sentimentRange
  , dateRange := newFilters.dateRange.getD state.dateRange
  , searchQuery := newFilters.searchQuery.getD state.searchQuery }

/-- `resetFilters` action of `useFilterStore`. -/
def resetFilters (_state : ArticleFilters) : ArticleFilters := defaultFilters

/-! ### Analysis Requester

Modelled from the spec: the `intelligence-analyzer` library
(`libs/intelligence-analyzer`, absent from the snapshot; its contract is
`specs/001-enterprise-data-intelligence/contracts/analyzer-contract.md`
and spec §4.2). -/

/-- The four admissible `classification` literals (analyzer contract,
`AnalysisResult` schema). -/
def validClassifications : List String :=
  ["competitive_news", "personnel_change", "product_launch", "market_trend"]

/-- The four admissible entity `type` literals (analyzer contract,
entity schema). -/
def validEntityTypes : List String :=
  ["company", "person", "product", "technology"]

/-- A named entity of a validated analysis result: text, one of the four
type literals, and a positive mention count. -/
structure Entity where
  text : String
  type : String
  mentions : Int
deriving DecidableEq, Repr

/-- Modelled from the spec: one JSON object as the LLM returned it,
before schema validation.  A field that the response object does not
contain is `none`.  (`entities` itself may also be missing; each raw
entity carries an arbitrary `type` string.) -/
structure RawResponse where
  entities : Option (List Entity)
  summary : Option (List Char)
  classification : Option String
  sentimentScore : Option Int
deriving DecidableEq, Repr

/-- Metadata the Analysis Requester attaches to a successful result:
model name, wall-clock duration, analysis timestamp. -/
structure AnalysisMeta where
  model : String
  processingTimeSeconds : Nat
  analyzedAt : Nat
deriving DecidableEq, Repr

/-- Modelled from the spec: the immutable `AnalysisResult` value of
spec §3 / the analyzer contract output schema. -/
structure AnalysisResult where
  entities : List Entity
  summary : List Char
  classification : String
  sentimentScore : Int
  model : String
  processingTimeSeconds : Nat
  analyzedAt : Nat
deriving DecidableEq, Repr

/-- True on the sentence-ending character used by the summary repair. -/
def isSentenceEnd (c : Char) : Bool := c = '.'

/-- Length of the longest prefix of `s` of length at most `i` that ends
right after a sentence-ending character (0 when there is none). -/
def sentenceCutLen (s : List Char) : Nat → Nat
  | 0 => 0
  | i + 1 =>
    if i + 1 ≤ s.length ∧ isSentenceEnd (s.getD i ' ') then i + 1
    else sentenceCutLen s i

/-- Modelled from the spec: a `summary` longer than 500 characters is
truncated at a sentence boundary rather than rejected (spec §4.2). -/
def truncateSummary (s : List Char) : List Char :=
  if s.length ≤ 500 then s else s.take (sentenceCutLen s 500)

/-- Decidable well-formedness of the validated parts of a raw response:
classification literal admissible, sentiment an integer in [1,10], and
every entity that survives the type filter has at least one mention. -/
def coreValid (cls : String) (sc : Int) (es : List Entity) : Prop :=
  cls ∈ validClassifications ∧ 1 ≤ sc ∧ sc ≤ 10 ∧
    ∀ e ∈ es.filter (fun e => e.type ∈ validEntityTypes), 1 ≤ e.mentions

instance (cls : String) (sc : Int) (es : List Entity) :
    Decidable (coreValid cls sc es) := by
  unfold coreValid; infer_instance

/-- Modelled from the spec: schema validation of a raw LLM response
(spec §4.2).  All required fields must be present; `sentimentScore` must
be an integer in [1,10] (out-of-range rejected, not clamped);
`classification` must be one of the four literals (anything else
rejected); entities with unknown `type` are dropped rather than failing
the result; an over-long `summary` is truncated at a sentence boundary
rather than rejected. -/
def validateResponse (r : RawResponse) (meta : AnalysisMeta) : Option AnalysisResult :=
  match r.entities, r.summary, r.classification, r.sentimentScore with
  | some es, some sm, some cls, some sc =>
    if coreValid cls sc es then
      some { entities := es.filter (fun e => e.type ∈ validEntityTypes)
           , summary := truncateSummary sm
           , classification := cls
           , sentimentScore := sc
           , model := meta.model
           , processingTimeSeconds := meta.processingTimeSeconds
           , analyzedAt := meta.analyzedAt }
    else none
  | _, _, _, _ => none

/-- Modelled from the spec: what one LLM invocation yields — a parsed
JSON object, output that fails to parse as JSON, or a
connection/timeout failure. -/
inductive LLMOutcome where
  | response (r : RawResponse)
  | parseFailure
  | connectionFailure
deriving DecidableEq, Repr

/-- Outcome of a single analysis attempt after parsing and validation. -/
inductive AttemptOutcome where
  | ok (a : AnalysisResult)
  | invalid
  | unavailable
deriving DecidableEq, Repr

/-- Modelled from the spec: classify one LLM invocation — connection
failure is `unavailable` (fatal), unparsable output or a response that
fails schema validation is `invalid` (retryable), a validated response
is `ok`. -/
def runAttempt (o : LLMOutcome) (meta : AnalysisMeta) : AttemptOutcome :=
  match o with
  | .connectionFailure => .unavailable
  | .parseFailure => .invalid
  | .response r =>
    match validateResponse r meta with
    | some a => .ok a
    | none => .invalid

/-- Failure taxonomy of `analyze` (spec §4.2; `Cancelled` is
caller-initiated and never produced by `analyze` itself). -/
inductive AnalysisError where
  | llmUnavailable
  | invalidResponse
  | cancelled
deriving DecidableEq, Repr

/-- Modelled from the spec: the single prompt built from an extracted
document, per the analyzer contract prompt template; both attempts use
this same string. -/
def buildPrompt (title : String) (content : List Char) : String :=
  "Analyze the following article and return a JSON response.\n" ++
    "Article Title: " ++ title ++ "\n\nArticle Content:\n" ++ String.mk content

/-- Modelled from the spec: `analyze` (spec §4.2).  Builds the prompt
once, invokes the LLM (`llm prompt attempt`), and on parse or
schema-validation failure performs exactly one retry with the same
prompt; a second failure is terminal.  A connection failure is fatal
immediately (no further retry).  Also returns the number of LLM calls
made. -/
def analyze (llm : String → Nat → LLMOutcome) (title : String) (content : List Char)
    (meta : AnalysisMeta) : Except AnalysisError AnalysisResult × Nat :=
  let prompt := buildPrompt title content
  match runAttempt (llm prompt 0) meta with
  | .ok a => (.ok a, 1)
  | .unavailable => (.error .llmUnavailable, 1)
  | .invalid =>
    match runAttempt (llm prompt 1) meta with
    | .ok a => (.ok a, 2)
    | .unavailable => (.error .llmUnavailable, 2)
    | .invalid => (.error .invalidResponse, 2)

/-- A concrete raw response that passes schema validation (used by the
witness theorems). -/
def sampleGoodResponse : RawResponse :=
  { entities := some [{ text := "NVIDIA", type := "company", mentions := 5 }]
  , summary := some "NVIDIA launched DGX H200.".data
  , classification := some "product_launch"
  , sentimentScore := some 9 }

/-- A concrete raw response whose sentiment is out of range (used by the
witness theorems). -/
def sampleBadResponse : RawResponse :=
  { entities := some []
  , summary := some "Out of range.".data
  , classification := some "product_launch"
  , sentimentScore := some 12 }

/-- Concrete metadata for the witness theorems. -/
def sampleMeta : AnalysisMeta :=
  { model := "llama3", processingTimeSeconds := 4, analyzedAt := 100 }

/-- A concrete LLM behaviour: out-of-range sentiment on the first call,
a valid object on the retry (used by the witness theorems). -/
def sampleRetryLLM : String → Nat → LLMOutcome := fun _ attempt =>
  if attempt = 0 then .response sampleBadResponse else .response sampleGoodResponse

/-- The validated result of `sampleGoodResponse` under `sampleMeta`
(used by the witness theorems). -/
def sampleGoodResult : AnalysisResult :=
  { entities := [{ text := "NVIDIA", type := "company", mentions := 5 }]
  , summary := "NVIDIA launched DGX H200.".data
  , classification := "product_launch"
  , sentimentScore := 9
  , model := "llama3"
  , processingTimeSeconds := 4
  , analyzedAt := 100 }

/-! ### Normalizer

Modelled from the spec: `normalize(raw, inputBudget)` of spec §4.1 (the
implementation is absent from the snapshot).  It trims whitespace,
fails with `ExtractionTooShort` when the cleaned text is shorter than 50
characters, and truncates over-budget text to the largest prefix that
ends at a word boundary. -/

/-- Whitespace characters recognised by the whitespace trimming. -/
def isSpace (c : Char) : Bool := c = ' ' || c = '\n' || c = '\t' || c = '\r'

/-- Trim leading and trailing whitespace (the only cleaning the
Normalizer performs per spec §4.1). -/
def trimChars (s : List Char) : List Char :=
  ((s.dropWhile isSpace).reverse.dropWhile isSpace).reverse

/-- Position `i` of `s` is a word boundary: the very start, the very
end, or adjacent to a whitespace character — a cut there is never
mid-token. -/
def boundaryAt (s : List Char) (i : Nat) : Bool :=
  i == 0 || decide (s.length ≤ i) ||
    isSpace (s.getD (i - 1) ' ') || isSpace (s.getD i ' ')

/-- The largest `n ≤ i` such that position `n` of `s` is a word
boundary (total: position 0 always is one). -/
def cutLen (s : List Char) : Nat → Nat
  | 0 => 0
  | i + 1 => if boundaryAt s (i + 1) then i + 1 else cutLen s i

/-- Modelled from the spec: truncate `s` to the largest prefix of
length at most `budget` ending at a word boundary; a no-op when `s`
already fits the budget. -/
def truncateWB (s : List Char) (budget : Nat) : List Char :=
  if budget < s.length then s.take (cutLen s budget) else s

/-- Failure of the Normalizer (spec §4.1): cleaned text shorter than 50
characters. -/
inductive NormalizeError where
  | extractionTooShort
deriving DecidableEq, Repr

/-- Modelled from the spec: the ephemeral `RawFetch` produced by the
extractor adapter (spec §3), extended with the `publishDate` and
`source` fields that the scraper contract (`ScrapedArticle`) delivers
and that persistence needs for the content fields. -/
structure RawFetch where
  url : String
  title : String
  bodyText : List Char
  publishDate : Nat
  source : String
  extractionMethod : String
  fetchedAt : Nat
deriving DecidableEq, Repr

/-- Modelled from the spec: the immutable `ExtractedDocument` value of
spec §3.  `originalLength` records the length of the cleaned text
before any truncation. -/
structure ExtractedDocument where
  url : String
  title : String
  cleanedText : List Char
  truncated : Bool
  originalLength : Nat
  method : String
  extractedAt : Nat
deriving DecidableEq, Repr

/-- Modelled from the spec: `normalize(raw, inputBudget)` (spec §4.1).
Trims whitespace; fails with `ExtractionTooShort` when the cleaned text
has fewer than 50 characters; otherwise truncates to the input budget
on a word boundary (truncation itself never fails) and sets
`truncated` exactly when truncation was needed. -/
def normalize (raw : RawFetch) (inputBudget : Nat) :
    Except NormalizeError ExtractedDocument :=
  let cleaned := trimChars raw.bodyText
  if cleaned.length < 50 then .error .extractionTooShort
  else .ok
    { url := raw.url
    , title := raw.title
    , cleanedText := truncateWB cleaned inputBudget
    , truncated := decide (inputBudget < cleaned.length)
    , originalLength := cleaned.length
    , method := raw.extractionMethod
    , extractedAt := raw.fetchedAt }

/-- Spec-side characterization (from the words of spec §4.1): `t` is
the largest prefix of `s` of length at most `budget` that ends at a
word boundary. -/
def MaxBoundaryCut (s : List Char) (budget : Nat) (t : List Char) : Prop :=
  ∃ n, n ≤ budget ∧ t = s.take n ∧ boundaryAt s n = true ∧
    ∀ k, k ≤ budget → boundaryAt s k = true → k ≤ n

/-- A concrete over-budget fetch for the C5 witness: 121 characters
with a single space in the middle. -/
def longRaw : RawFetch :=
  { url := "https://example.com/a"
  , title := "A"
  , bodyText := List.replicate 60 'a' ++ [' '] ++ List.replicate 60 'b'
  , publishDate := 0
  , source := "NVIDIA Newsroom"
  , extractionMethod := "trafilatura"
  , fetchedAt := 0 }

/-- A concrete fetch of 50 whitespace characters: its body length is
50 but its cleaned text is empty (C6 counterexample). -/
def whitespaceRaw : RawFetch :=
  { url := "https://example.com/w"
  , title := "W"
  , bodyText := List.replicate 50 ' '
  , publishDate := 0
  , source := "NVIDIA Newsroom"
  , extractionMethod := "trafilatura"
  , fetchedAt := 0 }

/-- A concrete fetch whose body is shorter than 50 characters (witness
input for the amended C6). -/
def shortRaw : RawFetch :=
  { url := "https://example.com/s"
  , title := "S"
  , bodyText := "too short".data
  , publishDate := 0
  , source := "NVIDIA Newsroom"
  , extractionMethod := "trafilatura"
  , fetchedAt := 0 }

/-! ### Pipeline Orchestrator

Modelled from the spec: the per-URL state machine, persistence ordering,
idempotent dedup and batch semantics of spec §4.3 (the backend
orchestration code `backend/src/startup.py` is absent from the
snapshot). -/

/-- Lifecycle status of an `ArticleRecord` (spec §3). -/
inductive Status where
  | pending
  | complete
  | failed
deriving DecidableEq, Repr

/-- Technical metadata of an `ArticleRecord` (spec §3). -/
structure RecordMetadata where
  extractionMethod : String
  truncated : Bool
  processingTimeSeconds : Option Nat
  errorLog : Option String
deriving DecidableEq, Repr

/-- Modelled from the spec: the persisted `ArticleRecord` aggregate of
spec §3 — identity, content, lifecycle and a nullable analysis
payload. -/
structure ArticleRecord where
  url : String
  title : String
  content : List Char
  publishDate : Nat
  source : String
  status : Status
  scrapedAt : Nat
  analyzedAt : Option Nat
  summary : Option (List Char)
  entities : Option (List Entity)
  classification : Option String
  sentimentScore : Option Int
  metadata : RecordMetadata
deriving DecidableEq, Repr

/-- The record store: a document collection keyed by `url` (spec §6),
modelled as an association list. -/
abbrev Store := List (String × ArticleRecord)

/-- Fetch the record stored under `url`, if any. -/
def lookupRecord (s : Store) (url : String) : Option ArticleRecord :=
  match s with
  | [] => none
  | (k, v) :: t => if k = url then some v else lookupRecord t url

/-- Upsert-by-url (spec §6): replace the record under `url` or append a
new one. -/
def upsertRecord (s : Store) (url : String) (r : ArticleRecord) : Store :=
  match s with
  | [] => [(url, r)]
  | (k, v) :: t =>
    if k = url then (url, r) :: t else (k, v) :: upsertRecord t url r

/-- How many entries the store holds under `url`. -/
def countKey (s : Store) (url : String) : Nat :=
  (s.filter (fun kv => kv.1 == url)).length

/-- Modelled from the spec: the collaborators and configuration of a
pipeline run — the extractor adapter (`none` signals extraction
failure), the LLM boundary (prompt and attempt index to outcome), the
configured input budget, the clock, the model name and the measured
call duration. -/
structure Env where
  extract : String → Option RawFetch
  llm : String → Nat → LLMOutcome
  inputBudget : Nat
  now : Nat
  modelName : String
  procTime : Nat

/-- The analysis metadata an environment induces. -/
def metaOf (env : Env) : AnalysisMeta :=
  { model := env.modelName
  , processingTimeSeconds := env.procTime
  , analyzedAt := env.now }

/-- Observable actions of one pipeline run: a persistence write of a
record under a url, or an LLM invocation (attempt 0 or 1) for a url. -/
inductive Event where
  | write (url : String) (rec : ArticleRecord)
  | llmCall (url : String) (attempt : Nat)
deriving DecidableEq, Repr

/-- Modelled from the spec: the Persist-Pending record of §4.3 step 3 —
`status=pending`, `scrapedAt=now`, content fields populated, analysis
fields null. -/
def pendingRecord (env : Env) (raw : RawFetch) (doc : ExtractedDocument) :
    ArticleRecord :=
  { url := raw.url
  , title := doc.title
  , content := doc.cleanedText
  , publishDate := raw.publishDate
  , source := raw.source
  , status := .pending
  , scrapedAt := env.now
  , analyzedAt := none
  , summary := none
  , entities := none
  , classification := none
  , sentimentScore := none
  , metadata :=
    { extractionMethod := doc.method
    , truncated := doc.truncated
    , processingTimeSeconds := none
    , errorLog := none } }

/-- Modelled from the spec: the Persist-Complete update of §4.3 step 4 —
`status=complete`, analysis fields populated, `analyzedAt=now`. -/
def completeRecord (env : Env) (p : ArticleRecord) (a : AnalysisResult) :
    ArticleRecord :=
  { p with
    status := .complete
  , analyzedAt := some env.now
  , summary := some a.summary
  , entities := some a.entities
  , classification := some a.classification
  , sentimentScore := some a.sentimentScore
  , metadata := { p.metadata with processingTimeSeconds := some a.processingTimeSeconds } }

/-- Modelled from the spec: the Persist-Failed update of §4.3 step 4 —
`status=failed`, `errorLog` set, analysis fields remain null. -/
def failedRecord (p : ArticleRecord) (msg : String) : ArticleRecord :=
  { p with
    status := .failed
  , metadata := { p.metadata with errorLog := some msg } }

/-- Modelled from the spec: the failure marker written when extraction
or normalization fails (§4.3 steps 1-2; scenario 4 records such a URL
as `failed` with an extraction error). -/
def extractionFailedRecord (env : Env) (url msg : String) : ArticleRecord :=
  { url := url
  , title := ""
  , content := []
  , publishDate := 0
  , source := ""
  , status := .failed
  , scrapedAt := env.now
  , analyzedAt := none
  , summary := none
  , entities := none
  , classification := none
  , sentimentScore := none
  , metadata :=
    { extractionMethod := ""
    , truncated := false
    , processingTimeSeconds := none
    , errorLog := some msg } }

/-- Human-readable failure kind recorded in `metadata.errorLog`. -/
def errorMessage : AnalysisError → String
  | .llmUnavailable => "LLMUnavailable"
  | .invalidResponse => "InvalidResponse"
  | .cancelled => "Cancelled"

/-- Result of submitting one URL: a freshly processed terminal record,
or the untouched existing record of a duplicate submission. -/
inductive UrlOutcome where
  | processed (r : ArticleRecord)
  | skipped (r : ArticleRecord)
deriving DecidableEq, Repr

/-- Modelled from the spec: the per-URL state machine of §4.3 as the
ordered sequence of persistence writes and LLM calls it performs,
together with its outcome.  Dedup runs first: an existing record for
the url short-circuits everything with no events.  Otherwise: extract
(failure → failed marker), normalize (failure → failed marker),
persist the pending record, analyze, then persist the complete or
failed record. -/
def runUrl (env : Env) (existing : Option ArticleRecord) (url : String) :
    List Event × UrlOutcome :=
  match existing with
  | some r => ([], .skipped r)
  | none =>
    match env.extract url with
    | none =>
      let r := extractionFailedRecord env url "ExtractionFailed"
      ([.write url r], .processed r)
    | some raw =>
      match normalize raw env.inputBudget with
      | .error .extractionTooShort =>
        let r := extractionFailedRecord env url "ExtractionTooShort"
        ([.write url r], .processed r)
      | .ok doc =>
        let p := pendingRecord env raw doc
        match analyze env.llm doc.title doc.cleanedText (metaOf env) with
        | (.ok a, n) =>
          let c := completeRecord env p a
          (.write url p :: (List.range n).map (Event.llmCall url) ++ [.write url c],
            .processed c)
        | (.error e, n) =>
          let f := failedRecord p (errorMessage e)
          (.write url p :: (List.range n).map (Event.llmCall url) ++ [.write url f],
            .processed f)

/-- Apply one event to the store (LLM calls do not touch the store). -/
def applyEvent (s : Store) : Event → Store
  | .write url r => upsertRecord s url r
  | .llmCall _ _ => s

/-- Apply a sequence of events to the store. -/
def applyEvents (s : Store) (es : List Event) : Store :=
  es.foldl applyEvent s

/-- Number of LLM invocations among a sequence of events. -/
def countLLMCalls (es : List Event) : Nat :=
  (es.filter (fun e => match e with | .llmCall _ _ => true | _ => false)).length

/-- The records written by a sequence of events, in order. -/
def writtenRecords (es : List Event) : List ArticleRecord :=
  es.filterMap (fun e => match e with | .write _ r => some r | _ => none)

/-- Modelled from the spec: `process(url)` of §4.3 — run the state
machine against the store; returns the updated store, the outcome, and
the number of LLM calls made. -/
def process (env : Env) (s : Store) (url : String) :
    Store × UrlOutcome × Nat :=
  let eo := runUrl env (lookupRecord s url) url
  (applyEvents s eo.1, eo.2, countLLMCalls eo.1)

/-- Modelled from the spec: `processBatch(urls)` of §4.3 — run each URL
through the state machine in sequence, collecting the per-URL
outcomes. -/
def processBatch (env : Env) (s : Store) (urls : List String) :
    Store × List (String × UrlOutcome) :=
  match urls with
  | [] => (s, [])
  | u :: rest =>
    let pr := process env s u
    let br := processBatch env pr.1 rest
    (br.1, (u, pr.2.1) :: br.2)

/-- A concrete pipeline environment (used by the witness theorems):
knows `longRaw.url`, budget 100, the retry-then-succeed LLM. -/
def sampleEnv : Env :=
  { extract := fun u => if u = longRaw.url then some longRaw else none
  , llm := sampleRetryLLM
  , inputBudget := 100
  , now := 7
  , modelName := "llama3"
  , procTime := 4 }

/-- The extracted document `normalize longRaw 100` produces: truncated
at the single word boundary, 61 characters (used by the witness
theorems). -/
def sampleDoc : ExtractedDocument :=
  { url := longRaw.url
  , title := "A"
  , cleanedText := List.replicate 60 'a' ++ [' ']
  , truncated := true
  , originalLength := 121
  , method := "trafilatura"
  , extractedAt := 0 }

/-- A concrete record in the `complete` state (used by the witness
theorems). -/
def sampleCompleteRec : ArticleRecord :=
  completeRecord sampleEnv (pendingRecord sampleEnv longRaw sampleDoc) sampleGoodResult

/-- A store already holding the complete record under `longRaw.url`
(used by the witness theorems). -/
def sampleCompleteStore : Store := [(longRaw.url, sampleCompleteRec)]

/-- A batch environment in which extraction succeeds for the first and
third url and fails for the second (used by the witness theorems). -/
def batchEnv : Env :=
  { extract := fun u =>
      if u = "https://a" then some { longRaw with url := "https://a" }
      else if u = "https://c" then some { longRaw with url := "https://c" }
      else none
  , llm := sampleRetryLLM
  , inputBudget := 100
  , now := 7
  , modelName := "llama3"
  , procTime := 4 }

/-- Three distinct urls; extraction fails for the middle one under
`batchEnv` (used by the witness theorems). -/
def batchUrls : List String := ["https://a", "https://b", "https://c"]

end DataIntel

namespace DataIntel

/-- C9: the init script creates a unique index on `url`, the compound
index over (`publishDate` desc, `classification`, `sentimentScore`), and
a text index over `title` and `content` in which `title` has the higher
weight. -/
theorem createIndexes_contract :
    (∃ d ∈ createIndexCalls, d.keys = [("url", IndexKey.asc)] ∧ d.unique = true) ∧
    (∃ d ∈ createIndexCalls,
      d.keys = [("publishDate", IndexKey.desc), ("classification", IndexKey.asc),
                ("sentimentScore", IndexKey.asc)]) ∧
    (∃ d ∈ createIndexCalls,
      d.keys = [("title", IndexKey.text), ("content", IndexKey.text)] ∧
      ∃ wt ∈ d.weights, wt.1 = "title" ∧
        ∀ wc ∈ d.weights, wc.1 = "content" → wc.2 < wt.2) := by
  refine ⟨⟨createIndexCalls[0], by simp [createIndexCalls], by simp [createIndexCalls], rfl⟩,
    ⟨createIndexCalls[6], by simp [createIndexCalls], by simp [createIndexCalls]⟩,
    ⟨createIndexCalls[7], by simp [createIndexCalls], by simp [createIndexCalls],
      ("title", 10), by simp [createIndexCalls], rfl, ?_⟩⟩
  intro wc hwc h
  simp [createIndexCalls] at hwc
  rcases hwc with h1 | h1 <;> simp [h1] at h ⊢

/-- C10: `setFilters` replaces only the top-level fields present in the
partial update; each of the four filter fields not named in the update
retains exactly its previous value. -/
theorem setFilters_frame (state : ArticleFilters) (u : FilterUpdate) :
    (u.classification = none → (setFilters state u).classification = state.classification) ∧
    (u.sentimentRange = none → (setFilters state u).sentimentRange = state.sentimentRange) ∧
    (u.dateRange = none → (setFilters state u).dateRange = state.dateRange) ∧
    (u.searchQuery = none → (setFilters state u).searchQuery = state.searchQuery) := by
  refine ⟨fun h => ?_, fun h => ?_, fun h => ?_, fun h => ?_⟩ <;>
    simp [setFilters, h]

/-- Witness for C10: a concrete update naming only `searchQuery` keeps
the other three fields of a concrete state unchanged. -/
theorem setFilters_frame_witness :
    (({ searchQuery := some "nvidia" } : FilterUpdate).classification = none →
      (setFilters { defaultFilters with classification := some "product_launch" }
        { searchQuery := some "nvidia" }).classification =
      ({ defaultFilters with classification := some "product_launch" } :
        ArticleFilters).classification) ∧
    (({ searchQuery := some "nvidia" } : FilterUpdate).sentimentRange = none →
      (setFilters { defaultFilters with classification := some "product_launch" }
        { searchQuery := some "nvidia" }).sentimentRange =
      ({ defaultFilters with classification := some "product_launch" } :
        ArticleFilters).sentimentRange) ∧
    (({ searchQuery := some "nvidia" } : FilterUpdate).dateRange = none →
      (setFilters { defaultFilters with classification := some "product_launch" }
        { searchQuery := some "nvidia" }).dateRange =
      ({ defaultFilters with classification := some "product_launch" } :
        ArticleFilters).dateRange) ∧
    (({ searchQuery := some "nvidia" } : FilterUpdate).searchQuery = none →
      (setFilters { defaultFilters with classification := some "product_launch" }
        { searchQuery := some "nvidia" }).searchQuery =
      ({ defaultFilters with classification := some "product_launch" } :
        ArticleFilters).searchQuery) :=
  setFilters_frame { defaultFilters with classification := some "product_launch" }
    { searchQuery := some "nvidia" }

/-- C1: every raw response that passes schema validation yields a result
whose `sentimentScore` is an integer in [1,10] and whose
`classification` is one of the four literals; the accepted values are
exactly the raw values — never clamped or coerced. -/
theorem validateResponse_bounds (r : RawResponse) (meta : AnalysisMeta)
    (a : AnalysisResult) (h : validateResponse r meta = some a) :
    (1 ≤ a.sentimentScore ∧ a.sentimentScore ≤ 10) ∧
    (a.classification = "competitive_news" ∨ a.classification = "personnel_change" ∨
      a.classification = "product_launch" ∨ a.classification = "market_trend") ∧
    r.sentimentScore = some a.sentimentScore ∧
    r.classification = some a.classification := by
  unfold validateResponse at h
  split at h
  case _ es sm cls sc hes hsm hcls hsc =>
    split at h
    case isTrue hv =>
      obtain ⟨hmem, h1, h2, _⟩ := hv
      cases h
      simp only [validClassifications, List.mem_cons, List.mem_singleton,
        List.not_mem_nil, or_false] at hmem
      exact ⟨⟨h1, h2⟩, hmem, hsc, hcls⟩
    case isFalse _ => exact absurd h (by simp)
  case _ => exact absurd h (by simp)

/-- Witness for C1 at a concrete adversarially-shaped but valid
response. -/
theorem validateResponse_bounds_witness :
    validateResponse sampleGoodResponse sampleMeta = some sampleGoodResult ∧
    ((1 ≤ sampleGoodResult.sentimentScore ∧ sampleGoodResult.sentimentScore ≤ 10) ∧
     (sampleGoodResult.classification = "competitive_news" ∨
      sampleGoodResult.classification = "personnel_change" ∨
      sampleGoodResult.classification = "product_launch" ∨
      sampleGoodResult.classification = "market_trend") ∧
     sampleGoodResponse.sentimentScore = some sampleGoodResult.sentimentScore ∧
     sampleGoodResponse.classification = some sampleGoodResult.classification) :=
  ⟨by decide, validateResponse_bounds sampleGoodResponse sampleMeta
    sampleGoodResult (by decide)⟩

/-- C2: `analyze` makes at most two LLM calls, both with the same
prompt; if the first attempt fails parse/validation and the retry
validates, the returned result is the retry value with exactly two
calls; two consecutive failures yield the terminal `invalidResponse`
failure. -/
theorem analyze_retry_semantics (llm : String → Nat → LLMOutcome) (title : String)
    (content : List Char) (meta : AnalysisMeta) :
    (analyze llm title content meta).2 ≤ 2 ∧
    (∀ a, runAttempt (llm (buildPrompt title content) 0) meta = .invalid →
      runAttempt (llm (buildPrompt title content) 1) meta = .ok a →
      analyze llm title content meta = (.ok a, 2)) ∧
    (runAttempt (llm (buildPrompt title content) 0) meta = .invalid →
      runAttempt (llm (buildPrompt title content) 1) meta = .invalid →
      analyze llm title content meta = (.error .invalidResponse, 2)) := by
  refine ⟨?_, fun a h0 h1 => ?_, fun h0 h1 => ?_⟩ <;> simp only [analyze]
  · cases h0 : runAttempt (llm (buildPrompt title content) 0) meta <;> simp only [h0] <;>
      first
      | simp
      | (cases h1 : runAttempt (llm (buildPrompt title content) 1) meta <;> simp [h1])
  · simp [h0, h1]
  · simp [h0, h1]

/-- Witness for C2: a concrete LLM that returns an out-of-range
sentiment first and a valid object on the retry; `analyze` returns the
retry value after exactly two calls. -/
theorem analyze_retry_semantics_witness :
    runAttempt (sampleRetryLLM (buildPrompt "Test" []) 0) sampleMeta = .invalid ∧
    runAttempt (sampleRetryLLM (buildPrompt "Test" []) 1) sampleMeta =
      .ok sampleGoodResult ∧
    analyze sampleRetryLLM "Test" [] sampleMeta = (.ok sampleGoodResult, 2) :=
  ⟨by decide, by decide,
    (analyze_retry_semantics sampleRetryLLM "Test" [] sampleMeta).2.1
      sampleGoodResult (by decide) (by decide)⟩

/-- Dropping a prefix of matching elements never lengthens a list. -/
theorem length_dropWhile_le (p : Char → Bool) (l : List Char) :
    (l.dropWhile p).length ≤ l.length := by
  induction l with
  | nil => simp [List.dropWhile]
  | cons a l ih =>
    simp only [List.dropWhile_cons]
    split
    · exact le_trans ih (Nat.le_succ _)
    · simp

/-- Trimming whitespace never lengthens the text. -/
theorem trimChars_length_le (s : List Char) : (trimChars s).length ≤ s.length := by
  unfold trimChars
  have h1 := length_dropWhile_le isSpace (s.dropWhile isSpace).reverse
  have h2 := length_dropWhile_le isSpace s
  simp only [List.length_reverse] at h1 ⊢
  omega

/-- The chosen cut position never exceeds the budget. -/
theorem cutLen_le (s : List Char) (i : Nat) : cutLen s i ≤ i := by
  induction i with
  | zero => simp [cutLen]
  | succ i ih =>
    unfold cutLen
    split
    · exact le_refl _
    · exact le_trans ih (Nat.le_succ i)

/-- The chosen cut position is a word boundary. -/
theorem boundaryAt_cutLen (s : List Char) (i : Nat) :
    boundaryAt s (cutLen s i) = true := by
  induction i with
  | zero => simp [cutLen, boundaryAt]
  | succ i ih =>
    unfold cutLen
    split
    · assumption
    · exact ih

/-- The chosen cut position is the largest word boundary within the
budget. -/
theorem cutLen_max (s : List Char) (i k : Nat) (hk : k ≤ i)
    (hb : boundaryAt s k = true) : k ≤ cutLen s i := by
  induction i with
  | zero => simpa [cutLen] using hk
  | succ i ih =>
    unfold cutLen
    split
    · exact hk
    · rcases Nat.lt_or_ge k (i + 1) with hlt | hge
      · exact ih (Nat.lt_succ_iff.mp hlt)
      · have hke : k = i + 1 := Nat.le_antisymm hk hge
        subst hke
        simp_all

/-- C5: whenever the cleaned text has at least 50 characters,
`normalize` succeeds, the result fits the input budget, `truncated`
holds exactly when the cleaned text exceeded the budget, and in that
case `cleanedText` is the largest prefix within the budget that ends at
a word boundary (truncation itself never fails). -/
theorem normalize_truncation (raw : RawFetch) (inputBudget : Nat)
    (h : 50 ≤ (trimChars raw.bodyText).length) :
    ∃ d, normalize raw inputBudget = .ok d ∧
      d.cleanedText.length ≤ inputBudget ∧
      (d.truncated = true ↔ inputBudget < (trimChars raw.bodyText).length) ∧
      (inputBudget < (trimChars raw.bodyText).length →
        MaxBoundaryCut (trimChars raw.bodyText) inputBudget d.cleanedText) := by
  have hnl : ¬ ((trimChars raw.bodyText).length < 50) := not_lt.mpr h
  refine ⟨_, by unfold normalize; rw [if_neg hnl], ?_, ?_, ?_⟩
  · by_cases hb : inputBudget < (trimChars raw.bodyText).length
    · simp only [truncateWB, if_pos hb, List.length_take]
      exact le_trans (min_le_left _ _) (cutLen_le _ _)
    · simp only [truncateWB, if_neg hb]
      omega
  · simp
  · intro hb
    refine ⟨cutLen (trimChars raw.bodyText) inputBudget, cutLen_le _ _, ?_,
      boundaryAt_cutLen _ _, fun k hk hbk => cutLen_max _ _ _ hk hbk⟩
    simp only [truncateWB, if_pos hb]

/-- Witness for C5: a 121-character cleaned text against a budget of
100 is truncated at the single space, within budget. -/
theorem normalize_truncation_witness :
    50 ≤ (trimChars longRaw.bodyText).length ∧
    ∃ d, normalize longRaw 100 = .ok d ∧
      d.cleanedText.length ≤ 100 ∧
      (d.truncated = true ↔ 100 < (trimChars longRaw.bodyText).length) ∧
      (100 < (trimChars longRaw.bodyText).length →
        MaxBoundaryCut (trimChars longRaw.bodyText) 100 d.cleanedText) :=
  ⟨by decide, normalize_truncation longRaw 100 (by decide)⟩

/-- Counterexample to C6 as stated: a body of 50 whitespace characters
has `len(bodyText) = 50` yet `normalize` fails with
`ExtractionTooShort`, because the cleaned (trimmed) text is empty. -/
theorem normalize_minlen_counterexample :
    whitespaceRaw.bodyText.length = 50 ∧
    normalize whitespaceRaw 10000 = .error .extractionTooShort :=
  ⟨by decide, by rfl⟩

/-- C6 (amended): `normalize` fails with `ExtractionTooShort` exactly
when the cleaned (whitespace-trimmed) text has fewer than 50
characters; in particular every fetch with `len(bodyText) < 50` fails
that way, since trimming never lengthens. -/
theorem normalize_minlen_amended (raw : RawFetch) (inputBudget : Nat) :
    (raw.bodyText.length < 50 →
      normalize raw inputBudget = .error .extractionTooShort) ∧
    (normalize raw inputBudget = .error .extractionTooShort ↔
      (trimChars raw.bodyText).length < 50) := by
  constructor
  · intro hlt
    have hc : (trimChars raw.bodyText).length < 50 :=
      lt_of_le_of_lt (trimChars_length_le _) hlt
    unfold normalize
    rw [if_pos hc]
  · constructor
    · intro hfail
      by_contra hge
      unfold normalize at hfail
      rw [if_neg hge] at hfail
      exact Except.noConfusion hfail
    · intro hc
      unfold normalize
      rw [if_pos hc]

/-- Witness for the amended C6 at a concrete 9-character body. -/
theorem normalize_minlen_amended_witness :
    (shortRaw.bodyText.length < 50 →
      normalize shortRaw 10000 = .error .extractionTooShort) ∧
    (normalize shortRaw 10000 = .error .extractionTooShort ↔
      (trimChars shortRaw.bodyText).length < 50) :=
  normalize_minlen_amended shortRaw 10000

/-- Looking up the key just upserted yields the new record. -/
theorem lookupRecord_upsert_self (s : Store) (url : String) (r : ArticleRecord) :
    lookupRecord (upsertRecord s url r) url = some r := by
  induction s with
  | nil => simp [upsertRecord, lookupRecord]
  | cons kv t ih =>
    obtain ⟨k, v⟩ := kv
    by_cases h : k = url
    · simp [upsertRecord, h, lookupRecord]
    · simp [upsertRecord, h, lookupRecord, ih]

/-- Upserting one key leaves every other key unchanged. -/
theorem lookupRecord_upsert_ne (s : Store) (url k : String) (r : ArticleRecord)
    (h : k ≠ url) :
    lookupRecord (upsertRecord s url r) k = lookupRecord s k := by
  induction s with
  | nil => simp [upsertRecord, lookupRecord, Ne.symm h]
  | cons kv t ih =>
    obtain ⟨k0, v⟩ := kv
    by_cases h0 : k0 = url
    · subst h0
      simp [upsertRecord, lookupRecord, Ne.symm h]
    · simp only [upsertRecord, if_neg h0, lookupRecord]
      by_cases hk : k0 = k
      · simp [hk]
      · simp [hk, ih]

/-- An absent key contributes no entries. -/
theorem countKey_eq_zero (s : Store) (url : String)
    (h : lookupRecord s url = none) : countKey s url = 0 := by
  induction s with
  | nil => simp [countKey]
  | cons kv t ih =>
    obtain ⟨k, v⟩ := kv
    by_cases hk : k = url
    · rw [lookupRecord, if_pos hk] at h
      exact absurd h (by simp)
    · rw [lookupRecord, if_neg hk] at h
      simpa [countKey, List.filter_cons, hk] using ih h

/-- Upserting an absent key yields exactly one entry under it. -/
theorem countKey_upsert_none (s : Store) (url : String) (r : ArticleRecord)
    (h : lookupRecord s url = none) :
    countKey (upsertRecord s url r) url = 1 := by
  induction s with
  | nil => simp [upsertRecord, countKey, List.filter_cons]
  | cons kv t ih =>
    obtain ⟨k, v⟩ := kv
    by_cases hk : k = url
    · rw [lookupRecord, if_pos hk] at h
      exact absurd h (by simp)
    · rw [lookupRecord, if_neg hk] at h
      simpa [upsertRecord, if_neg hk, countKey, List.filter_cons, hk] using ih h

/-- Upserting a present key keeps the number of entries under it. -/
theorem countKey_upsert_some (s : Store) (url : String) (r v0 : ArticleRecord)
    (h : lookupRecord s url = some v0) :
    countKey (upsertRecord s url r) url = countKey s url := by
  induction s with
  | nil => simp [lookupRecord] at h
  | cons kv t ih =>
    obtain ⟨k, v⟩ := kv
    by_cases hk : k = url
    · subst hk
      simp [upsertRecord, countKey, List.filter_cons]
    · rw [lookupRecord, if_neg hk] at h
      simpa [upsertRecord, if_neg hk, countKey, List.filter_cons, hk] using ih h

/-- Unfolding `applyEvents` over a cons. -/
theorem applyEvents_cons (s : Store) (e : Event) (es : List Event) :
    applyEvents s (e :: es) = applyEvents (applyEvent s e) es := rfl

/-- Unfolding `applyEvents` over an append. -/
theorem applyEvents_append (s : Store) (a b : List Event) :
    applyEvents s (a ++ b) = applyEvents (applyEvents s a) b := by
  simp [applyEvents, List.foldl_append]

/-- LLM-call events never change the store. -/
theorem applyEvents_calls (s : Store) (es : List Event)
    (h : ∀ e ∈ es, ∀ u rec, e ≠ Event.write u rec) :
    applyEvents s es = s := by
  induction es generalizing s with
  | nil => rfl
  | cons e es ih =>
    rw [applyEvents_cons]
    have he : applyEvent s e = s := by
      cases e with
      | write u rec => exact absurd rfl (h _ (List.mem_cons_self _ _) u rec)
      | llmCall _ _ => rfl
    rw [he]
    exact ih s (fun e' he' => h e' (List.mem_cons_of_mem _ he'))

/-- All write events of a sequence target `url`; then every other key
is untouched. -/
theorem lookup_applyEvents_of_keyed (s : Store) (es : List Event) (k url : String)
    (hne : k ≠ url) (h : ∀ rec u, Event.write u rec ∈ es → u = url) :
    lookupRecord (applyEvents s es) k = lookupRecord s k := by
  induction es generalizing s with
  | nil => rfl
  | cons e es ih =>
    rw [applyEvents_cons]
    have hrest : ∀ rec u, Event.write u rec ∈ es → u = url :=
      fun rec u hm => h rec u (List.mem_cons_of_mem _ hm)
    cases e with
    | write u rec =>
      have hu : u = url := h rec u (List.mem_cons_self _ _)
      rw [ih _ hrest]
      exact lookupRecord_upsert_ne s u k rec (hu ▸ hne)
    | llmCall _ _ => exact ih s hrest

/-- Stores agreeing at a key keep agreeing at it under any event
sequence. -/
theorem lookup_applyEvents_congr (s s' : Store) (es : List Event) (k : String)
    (h : lookupRecord s k = lookupRecord s' k) :
    lookupRecord (applyEvents s es) k = lookupRecord (applyEvents s' es) k := by
  induction es generalizing s s' with
  | nil => exact h
  | cons e es ih =>
    rw [applyEvents_cons, applyEvents_cons]
    cases e with
    | write u rec =>
      simp only [applyEvent]
      apply ih
      by_cases hk : k = u
      · subst hk
        rw [lookupRecord_upsert_self, lookupRecord_upsert_self]
      · rw [lookupRecord_upsert_ne _ _ _ _ hk, lookupRecord_upsert_ne _ _ _ _ hk]
        exact h
    | llmCall _ _ => exact ih _ _ h

/-- Every write event of a pipeline run targets the run's own url. -/
theorem runUrl_keyed (env : Env) (ex : Option ArticleRecord) (url : String) :
    ∀ rec u, Event.write u rec ∈ (runUrl env ex url).1 → u = url := by
  intro rec u hm
  cases ex with
  | some r => simp [runUrl] at hm
  | none =>
    cases hx : env.extract url with
    | none =>
      simp [runUrl, hx] at hm
      exact hm.1
    | some raw =>
      cases hn : normalize raw env.inputBudget with
      | error e =>
        cases e
        simp [runUrl, hx, hn] at hm
        exact hm.1
      | ok doc =>
        rcases ha : analyze env.llm doc.title doc.cleanedText (metaOf env) with ⟨res, n⟩
        cases res with
        | ok a =>
          simp [runUrl, hx, hn, ha] at hm
          rcases hm with ⟨h1, _⟩ | ⟨h1, _⟩ <;> exact h1
        | error e =>
          simp [runUrl, hx, hn, ha] at hm
          rcases hm with ⟨h1, _⟩ | ⟨h1, _⟩ <;> exact h1

/-- Submitting a url that already has a record is a no-op: same store,
the existing record returned, zero LLM calls. -/
theorem process_skip (env : Env) (s : Store) (url : String) (r : ArticleRecord)
    (h : lookupRecord s url = some r) :
    process env s url = (s, .skipped r, 0) := by
  simp [process, h, runUrl, applyEvents, countLLMCalls]

/-- Processing one url leaves every other key of the store unchanged. -/
theorem process_local (env : Env) (s : Store) (url k : String) (hne : k ≠ url) :
    lookupRecord (process env s url).1 k = lookupRecord s k := by
  simp only [process]
  exact lookup_applyEvents_of_keyed s _ k url hne (runUrl_keyed env _ url)

/-- The outcome and own-key result of `process` depend on the store
only through the record stored under the processed url. -/
theorem process_congr (env : Env) (s s' : Store) (url : String)
    (h : lookupRecord s url = lookupRecord s' url) :
    (process env s url).2 = (process env s' url).2 ∧
    lookupRecord (process env s url).1 url =
      lookupRecord (process env s' url).1 url := by
  refine ⟨?_, ?_⟩ <;> simp only [process, h]
  exact lookup_applyEvents_congr s s' _ url h

/-- LLM-call event sequences never change the store. -/
theorem applyEvents_map_calls (s : Store) (l : List Nat) (url : String) :
    applyEvents s (l.map (Event.llmCall url)) = s := by
  apply applyEvents_calls
  intro e he u rec
  simp only [List.mem_map] at he
  rcases he with ⟨a, _, rfl⟩
  simp

/-- `analyze` always makes at least one LLM call. -/
theorem analyze_calls_pos (llm : String → Nat → LLMOutcome) (title : String)
    (content : List Char) (meta : AnalysisMeta) :
    1 ≤ (analyze llm title content meta).2 := by
  simp only [analyze]
  cases h0 : runAttempt (llm (buildPrompt title content) 0) meta <;> simp only [h0] <;>
    first
    | simp
    | (cases h1 : runAttempt (llm (buildPrompt title content) 1) meta <;> simp [h1])

/-- A successful attempt stems from a raw response that passed schema
validation. -/
theorem runAttempt_ok_validated (o : LLMOutcome) (meta : AnalysisMeta)
    (a : AnalysisResult) (h : runAttempt o meta = .ok a) :
    ∃ r, validateResponse r meta = some a := by
  cases o with
  | parseFailure => simp [runAttempt] at h
  | connectionFailure => simp [runAttempt] at h
  | response r =>
    simp only [runAttempt] at h
    cases hv : validateResponse r meta with
    | none => rw [hv] at h; simp at h
    | some a0 =>
      rw [hv] at h
      simp only [AttemptOutcome.ok.injEq] at h
      exact ⟨r, by rw [hv, h]⟩

/-- A successful `analyze` result passed schema validation. -/
theorem analyze_ok_validated (llm : String → Nat → LLMOutcome) (title : String)
    (content : List Char) (meta : AnalysisMeta) (a : AnalysisResult) (n : Nat)
    (h : analyze llm title content meta = (.ok a, n)) :
    ∃ r, validateResponse r meta = some a := by
  simp only [analyze] at h
  cases h0 : runAttempt (llm (buildPrompt title content) 0) meta with
  | ok a0 =>
    rw [h0] at h
    simp only [Prod.mk.injEq, Except.ok.injEq] at h
    exact h.1 ▸ runAttempt_ok_validated _ _ _ h0
  | unavailable => rw [h0] at h; simp at h
  | invalid =>
    rw [h0] at h
    cases h1 : runAttempt (llm (buildPrompt title content) 1) meta with
    | ok a1 =>
      rw [h1] at h
      simp only [Prod.mk.injEq, Except.ok.injEq] at h
      exact h.1 ▸ runAttempt_ok_validated _ _ _ h1
    | unavailable => rw [h1] at h; simp at h
    | invalid => rw [h1] at h; simp at h

/-- Processing a url with no prior record stores exactly one record
under it, with a terminal status, and returns it as the outcome. -/
theorem process_fresh_lookup (env : Env) (s : Store) (url : String)
    (h : lookupRecord s url = none) :
    ∃ r, lookupRecord (process env s url).1 url = some r ∧
      countKey (process env s url).1 url = 1 ∧
      (r.status = .complete ∨ r.status = .failed) ∧
      (process env s url).2.1 = .processed r := by
  simp only [process, h]
  cases hx : env.extract url with
  | none =>
    have hr : runUrl env none url =
        ([Event.write url (extractionFailedRecord env url "ExtractionFailed")],
          .processed (extractionFailedRecord env url "ExtractionFailed")) := by
      simp [runUrl, hx]
    rw [hr]
    refine ⟨_, ?_, ?_, Or.inr rfl, rfl⟩
    · exact lookupRecord_upsert_self s url _
    · exact countKey_upsert_none s url _ h
  | some raw =>
    cases hn : normalize raw env.inputBudget with
    | error e =>
      cases e
      have hr : runUrl env none url =
          ([Event.write url (extractionFailedRecord env url "ExtractionTooShort")],
            .processed (extractionFailedRecord env url "ExtractionTooShort")) := by
        simp [runUrl, hx, hn]
      rw [hr]
      refine ⟨_, ?_, ?_, Or.inr rfl, rfl⟩
      · exact lookupRecord_upsert_self s url _
      · exact countKey_upsert_none s url _ h
    | ok doc =>
      rcases ha : analyze env.llm doc.title doc.cleanedText (metaOf env) with ⟨res, n⟩
      cases res with
      | ok a =>
        have hr : runUrl env none url =
            (Event.write url (pendingRecord env raw doc) ::
                (List.range n).map (Event.llmCall url) ++
                [Event.write url (completeRecord env (pendingRecord env raw doc) a)],
              .processed (completeRecord env (pendingRecord env raw doc) a)) := by
          simp [runUrl, hx, hn, ha]
        have hfinal : applyEvents s
            (Event.write url (pendingRecord env raw doc) ::
              (List.range n).map (Event.llmCall url) ++
              [Event.write url (completeRecord env (pendingRecord env raw doc) a)]) =
            upsertRecord (upsertRecord s url (pendingRecord env raw doc)) url
              (completeRecord env (pendingRecord env raw doc) a) := by
          rw [applyEvents_append]
          rw [show applyEvents s (Event.write url (pendingRecord env raw doc) ::
              (List.range n).map (Event.llmCall url)) =
              upsertRecord s url (pendingRecord env raw doc) from by
            rw [applyEvents_cons, applyEvents_map_calls]; rfl]
          rfl
        rw [hr]
        dsimp only
        rw [hfinal]
        refine ⟨_, ?_, ?_, Or.inl rfl, rfl⟩
        · exact lookupRecord_upsert_self _ url _
        · rw [countKey_upsert_some _ url _ (pendingRecord env raw doc)
            (lookupRecord_upsert_self s url _)]
          exact countKey_upsert_none s url _ h
      | error e =>
        have hr : runUrl env none url =
            (Event.write url (pendingRecord env raw doc) ::
                (List.range n).map (Event.llmCall url) ++
                [Event.write url (failedRecord (pendingRecord env raw doc) (errorMessage e))],
              .processed (failedRecord (pendingRecord env raw doc) (errorMessage e))) := by
          simp [runUrl, hx, hn, ha]
        have hfinal : applyEvents s
            (Event.write url (pendingRecord env raw doc) ::
              (List.range n).map (Event.llmCall url) ++
              [Event.write url (failedRecord (pendingRecord env raw doc) (errorMessage e))]) =
            upsertRecord (upsertRecord s url (pendingRecord env raw doc)) url
              (failedRecord (pendingRecord env raw doc) (errorMessage e)) := by
          rw [applyEvents_append]
          rw [show applyEvents s (Event.write url (pendingRecord env raw doc) ::
              (List.range n).map (Event.llmCall url)) =
              upsertRecord s url (pendingRecord env raw doc) from by
            rw [applyEvents_cons, applyEvents_map_calls]; rfl]
          rfl
        rw [hr]
        dsimp only
        rw [hfinal]
        refine ⟨_, ?_, ?_, Or.inr rfl, rfl⟩
        · exact lookupRecord_upsert_self _ url _
        · rw [countKey_upsert_some _ url _ (pendingRecord env raw doc)
            (lookupRecord_upsert_self s url _)]
          exact countKey_upsert_none s url _ h


/-- Processing a batch leaves every key outside the batch unchanged. -/
theorem processBatch_local (env : Env) : ∀ (urls : List String) (s : Store) (k : String),
    k ∉ urls → lookupRecord (processBatch env s urls).1 k = lookupRecord s k := by
  intro urls
  induction urls with
  | nil => intro s k _; rfl
  | cons u rest ih =>
    intro s k hk
    simp only [processBatch]
    rw [ih _ k (fun hm => hk (List.mem_cons_of_mem _ hm))]
    exact process_local env s u k (fun he => hk (he ▸ List.mem_cons_self _ _))

/-- `writtenRecords` distributes over append. -/
theorem writtenRecords_append (a b : List Event) :
    writtenRecords (a ++ b) = writtenRecords a ++ writtenRecords b := by
  simp [writtenRecords, List.filterMap_append]

/-- A write event contributes its record. -/
theorem writtenRecords_cons_write (url : String) (r : ArticleRecord) (es : List Event) :
    writtenRecords (Event.write url r :: es) = r :: writtenRecords es := rfl

/-- An LLM-call event contributes no record. -/
theorem writtenRecords_cons_call (url : String) (a : Nat) (es : List Event) :
    writtenRecords (Event.llmCall url a :: es) = writtenRecords es := rfl

/-- LLM-call sequences contribute no records. -/
theorem writtenRecords_calls (l : List Nat) (url : String) :
    writtenRecords (l.map (Event.llmCall url)) = [] := by
  induction l with
  | nil => rfl
  | cons a l ih => rw [List.map_cons, writtenRecords_cons_call]; exact ih

/-- The records an analysis trace writes: the pending record, then the
final record. -/
theorem writtenRecords_trace (url : String) (p f : ArticleRecord) (n : Nat) :
    writtenRecords ((Event.write url p :: (List.range n).map (Event.llmCall url)) ++
      [Event.write url f]) = [p, f] := by
  rw [writtenRecords_append, writtenRecords_cons_write, writtenRecords_calls]
  rfl

/-- Any strict prefix of an analysis trace that includes its first event
leaves the pending record stored. -/
theorem lookup_take_pending (s : Store) (url : String) (p f : ArticleRecord)
    (n j : Nat) (hj : 0 < j)
    (hj2 : j < ((Event.write url p :: (List.range n).map (Event.llmCall url)) ++
      [Event.write url f]).length) :
    lookupRecord (applyEvents s (((Event.write url p ::
        (List.range n).map (Event.llmCall url)) ++ [Event.write url f]).take j)) url
      = some p := by
  obtain ⟨j, rfl⟩ : ∃ j0, j = j0 + 1 := ⟨j - 1, by omega⟩
  have hle : j + 1 ≤ (Event.write url p ::
      (List.range n).map (Event.llmCall url)).length := by
    simp only [List.length_append, List.length_cons, List.length_map,
      List.length_range, List.length_nil] at hj2 ⊢
    omega
  rw [List.take_append_of_le_length hle, List.take_succ_cons, applyEvents_cons,
    ← List.map_take, applyEvents_map_calls]
  exact lookupRecord_upsert_self s url p


/-- C4: submitting a URL twice is idempotent — an existing record makes
`process` a no-op returning that record unchanged with zero LLM calls,
and a fresh URL ends with exactly one stored record whose re-submission
is such a no-op. -/
theorem idempotent_submission (env : Env) (s : Store) (url : String) :
    (∀ r, lookupRecord s url = some r → process env s url = (s, .skipped r, 0)) ∧
    (lookupRecord s url = none →
      ∃ r, lookupRecord (process env s url).1 url = some r ∧
        countKey (process env s url).1 url = 1 ∧
        process env (process env s url).1 url = ((process env s url).1, .skipped r, 0)) := by
  refine ⟨fun r hr => process_skip env s url r hr, fun h => ?_⟩
  obtain ⟨r, hl, hc, _, _⟩ := process_fresh_lookup env s url h
  exact ⟨r, hl, hc, process_skip env _ url r hl⟩

/-- Witness for C4: a fresh url under `sampleEnv` ends with one record
and an idempotent second submission. -/
theorem idempotent_submission_witness :
    lookupRecord ([] : Store) longRaw.url = none ∧
    ∃ r, lookupRecord (process sampleEnv [] longRaw.url).1 longRaw.url = some r ∧
      countKey (process sampleEnv [] longRaw.url).1 longRaw.url = 1 ∧
      process sampleEnv (process sampleEnv [] longRaw.url).1 longRaw.url =
        ((process sampleEnv [] longRaw.url).1, .skipped r, 0) :=
  ⟨rfl, (idempotent_submission sampleEnv [] longRaw.url).2 rfl⟩

/-- C3: a record reaches `complete` only through a successful,
schema-validated analysis, with all analysis fields non-null at that
point; within a run nothing is written after a complete record, and an
already-complete record is never transitioned again (re-submission is a
skip). -/
theorem complete_is_terminal (env : Env) (ex : Option ArticleRecord) (url : String)
    (s : Store) :
    (∀ rec, Event.write url rec ∈ (runUrl env ex url).1 → rec.status = .complete →
      ∃ raw doc a n rr, env.extract url = some raw ∧
        normalize raw env.inputBudget = Except.ok doc ∧
        analyze env.llm doc.title doc.cleanedText (metaOf env) = (.ok a, n) ∧
        validateResponse rr (metaOf env) = some a ∧
        rec = completeRecord env (pendingRecord env raw doc) a ∧
        rec.summary = some a.summary ∧
        rec.entities = some a.entities ∧
        rec.classification = some a.classification ∧
        rec.sentimentScore = some a.sentimentScore ∧
        rec.analyzedAt = some env.now) ∧
    (∀ r ∈ (writtenRecords (runUrl env ex url).1).dropLast, r.status ≠ .complete) ∧
    (∀ r, lookupRecord s url = some r → r.status = .complete →
      process env s url = (s, .skipped r, 0)) := by
  refine ⟨?_, ?_, fun r hr _ => process_skip env s url r hr⟩
  · intro rec hm hst
    cases ex with
    | some r0 => simp [runUrl] at hm
    | none =>
      cases hx : env.extract url with
      | none =>
        simp [runUrl, hx] at hm
        rw [hm] at hst
        simp [extractionFailedRecord] at hst
      | some raw =>
        cases hn : normalize raw env.inputBudget with
        | error e =>
          cases e
          simp [runUrl, hx, hn] at hm
          rw [hm] at hst
          simp [extractionFailedRecord] at hst
        | ok doc =>
          rcases ha : analyze env.llm doc.title doc.cleanedText (metaOf env) with ⟨res, n⟩
          cases res with
          | error e =>
            simp [runUrl, hx, hn, ha] at hm
            rcases hm with hm | hm <;> rw [hm] at hst <;>
              simp [pendingRecord, failedRecord] at hst
          | ok a =>
            simp [runUrl, hx, hn, ha] at hm
            rcases hm with hm | hm
            · rw [hm] at hst
              simp [pendingRecord] at hst
            · obtain ⟨rr, hrr⟩ :=
                analyze_ok_validated env.llm doc.title doc.cleanedText (metaOf env) a n ha
              exact ⟨raw, doc, a, n, rr, rfl, hn, ha, hrr, hm,
                by rw [hm]; rfl, by rw [hm]; rfl, by rw [hm]; rfl,
                by rw [hm]; rfl, by rw [hm]; rfl⟩
  · intro r hr
    cases ex with
    | some r0 => simp [runUrl, writtenRecords] at hr
    | none =>
      cases hx : env.extract url with
      | none => simp [runUrl, hx, writtenRecords] at hr
      | some raw =>
        cases hn : normalize raw env.inputBudget with
        | error e =>
          cases e
          simp [runUrl, hx, hn, writtenRecords] at hr
        | ok doc =>
          rcases ha : analyze env.llm doc.title doc.cleanedText (metaOf env) with ⟨res, n⟩
          have htr : ∀ f : ArticleRecord,
              ((writtenRecords ((Event.write url (pendingRecord env raw doc) ::
                (List.range n).map (Event.llmCall url)) ++
                [Event.write url f])).dropLast) = [pendingRecord env raw doc] := by
            intro f
            rw [writtenRecords_trace]
            rfl
          cases res with
          | ok a =>
            have hru : (runUrl env none url).1 =
                (Event.write url (pendingRecord env raw doc) ::
                  (List.range n).map (Event.llmCall url)) ++
                [Event.write url (completeRecord env (pendingRecord env raw doc) a)] := by
              simp [runUrl, hx, hn, ha]
            rw [hru, htr] at hr
            simp only [List.mem_singleton] at hr
            rw [hr]
            simp [pendingRecord]
          | error e =>
            have hru : (runUrl env none url).1 =
                (Event.write url (pendingRecord env raw doc) ::
                  (List.range n).map (Event.llmCall url)) ++
                [Event.write url (failedRecord (pendingRecord env raw doc) (errorMessage e))] := by
              simp [runUrl, hx, hn, ha]
            rw [hru, htr] at hr
            simp only [List.mem_singleton] at hr
            rw [hr]
            simp [pendingRecord]

/-- Witness for C3: re-submitting the url of an already-complete record
skips it, leaving store and record untouched. -/
theorem complete_is_terminal_witness :
    lookupRecord sampleCompleteStore longRaw.url = some sampleCompleteRec ∧
    sampleCompleteRec.status = Status.complete ∧
    process sampleEnv sampleCompleteStore longRaw.url =
      (sampleCompleteStore, .skipped sampleCompleteRec, 0) :=
  ⟨by rfl, rfl,
    (complete_is_terminal sampleEnv none longRaw.url sampleCompleteStore).2.2
      sampleCompleteRec (by rfl) rfl⟩

/-- C7: whenever fetch and normalization succeed, the very first event
of the run is the pending write (status pending, content fields
populated, analysis fields null); the LLM is only called afterwards,
and interrupting the run at any point after that first event and before
the final write leaves exactly the pending record stored. -/
theorem pending_precedes_analysis (env : Env) (s : Store) (url : String)
    (raw : RawFetch) (doc : ExtractedDocument)
    (hx : env.extract url = some raw)
    (hn : normalize raw env.inputBudget = Except.ok doc) :
    ∃ rest, (runUrl env none url).1 =
        Event.write url (pendingRecord env raw doc) :: rest ∧
      (pendingRecord env raw doc).status = .pending ∧
      (pendingRecord env raw doc).title = doc.title ∧
      (pendingRecord env raw doc).content = doc.cleanedText ∧
      (pendingRecord env raw doc).publishDate = raw.publishDate ∧
      (pendingRecord env raw doc).source = raw.source ∧
      (pendingRecord env raw doc).scrapedAt = env.now ∧
      (pendingRecord env raw doc).summary = none ∧
      (pendingRecord env raw doc).entities = none ∧
      (pendingRecord env raw doc).classification = none ∧
      (pendingRecord env raw doc).sentimentScore = none ∧
      (pendingRecord env raw doc).analyzedAt = none ∧
      Event.llmCall url 0 ∈ rest ∧
      (∀ j, 0 < j → j < ((runUrl env none url).1).length →
        lookupRecord (applyEvents s (((runUrl env none url).1).take j)) url =
          some (pendingRecord env raw doc)) := by
  rcases ha : analyze env.llm doc.title doc.cleanedText (metaOf env) with ⟨res, n⟩
  have hn1 : 1 ≤ n := by
    have h := analyze_calls_pos env.llm doc.title doc.cleanedText (metaOf env)
    rw [ha] at h
    simpa using h
  have hcall : Event.llmCall url 0 ∈ (List.range n).map (Event.llmCall url) := by
    simp only [List.mem_map]
    exact ⟨0, by simpa using hn1, rfl⟩
  cases res with
  | ok a =>
    have hru : (runUrl env none url).1 =
        (Event.write url (pendingRecord env raw doc) ::
          (List.range n).map (Event.llmCall url)) ++
        [Event.write url (completeRecord env (pendingRecord env raw doc) a)] := by
      simp [runUrl, hx, hn, ha]
    refine ⟨(List.range n).map (Event.llmCall url) ++
        [Event.write url (completeRecord env (pendingRecord env raw doc) a)],
      by rw [hru]; simp, rfl, rfl, rfl, rfl, rfl, rfl, rfl, rfl, rfl, rfl, rfl,
      List.mem_append_left _ hcall, ?_⟩
    intro j hj hjlen
    rw [hru] at hjlen ⊢
    exact lookup_take_pending s url _ _ n j hj hjlen
  | error e =>
    have hru : (runUrl env none url).1 =
        (Event.write url (pendingRecord env raw doc) ::
          (List.range n).map (Event.llmCall url)) ++
        [Event.write url (failedRecord (pendingRecord env raw doc) (errorMessage e))] := by
      simp [runUrl, hx, hn, ha]
    refine ⟨(List.range n).map (Event.llmCall url) ++
        [Event.write url (failedRecord (pendingRecord env raw doc) (errorMessage e))],
      by rw [hru]; simp, rfl, rfl, rfl, rfl, rfl, rfl, rfl, rfl, rfl, rfl, rfl,
      List.mem_append_left _ hcall, ?_⟩
    intro j hj hjlen
    rw [hru] at hjlen ⊢
    exact lookup_take_pending s url _ _ n j hj hjlen

/-- Witness for C7 under `sampleEnv`: fetch and normalization succeed
concretely and the pending write leads the trace. -/
theorem pending_precedes_analysis_witness :
    sampleEnv.extract longRaw.url = some longRaw ∧
    normalize longRaw sampleEnv.inputBudget = Except.ok sampleDoc ∧
    (∃ rest, (runUrl sampleEnv none longRaw.url).1 =
        Event.write longRaw.url (pendingRecord sampleEnv longRaw sampleDoc) :: rest ∧
      (pendingRecord sampleEnv longRaw sampleDoc).status = .pending ∧
      (pendingRecord sampleEnv longRaw sampleDoc).title = sampleDoc.title ∧
      (pendingRecord sampleEnv longRaw sampleDoc).content = sampleDoc.cleanedText ∧
      (pendingRecord sampleEnv longRaw sampleDoc).publishDate = longRaw.publishDate ∧
      (pendingRecord sampleEnv longRaw sampleDoc).source = longRaw.source ∧
      (pendingRecord sampleEnv longRaw sampleDoc).scrapedAt = sampleEnv.now ∧
      (pendingRecord sampleEnv longRaw sampleDoc).summary = none ∧
      (pendingRecord sampleEnv longRaw sampleDoc).entities = none ∧
      (pendingRecord sampleEnv longRaw sampleDoc).classification = none ∧
      (pendingRecord sampleEnv longRaw sampleDoc).sentimentScore = none ∧
      (pendingRecord sampleEnv longRaw sampleDoc).analyzedAt = none ∧
      Event.llmCall longRaw.url 0 ∈ rest ∧
      (∀ j, 0 < j → j < ((runUrl sampleEnv none longRaw.url).1).length →
        lookupRecord (applyEvents [] (((runUrl sampleEnv none longRaw.url).1).take j))
            longRaw.url =
          some (pendingRecord sampleEnv longRaw sampleDoc))) :=
  ⟨by rfl, by rfl,
    pending_precedes_analysis sampleEnv [] longRaw.url longRaw sampleDoc (by rfl) (by rfl)⟩

/-- C8: `processBatch` over distinct urls records one outcome per url,
each equal to that url's standalone pipeline result on the initial
store; every fresh url ends in its own terminal (complete or failed)
record regardless of any other url failing. -/
theorem batch_isolation (env : Env) (s : Store) (urls : List String)
    (h : urls.Nodup) :
    ((processBatch env s urls).2.map Prod.fst = urls) ∧
    (∀ u o, (u, o) ∈ (processBatch env s urls).2 → o = (process env s u).2.1) ∧
    (∀ u ∈ urls, lookupRecord (processBatch env s urls).1 u =
      lookupRecord (process env s u).1 u) ∧
    (∀ u ∈ urls, lookupRecord s u = none →
      ∃ r, lookupRecord (processBatch env s urls).1 u = some r ∧
        (r.status = .complete ∨ r.status = .failed) ∧
        (process env s u).2.1 = .processed r) := by
  revert h
  induction urls generalizing s with
  | nil =>
    intro _
    refine ⟨rfl, ?_, ?_, ?_⟩ <;> intro u hu <;> simp [processBatch] at hu ⊢
  | cons u rest ih =>
    intro h
    obtain ⟨hu, hrest⟩ := List.nodup_cons.mp h
    obtain ⟨ih1, ih2, ih3, ih4⟩ := ih (process env s u).1 hrest
    have hloc : ∀ u2 ∈ rest, lookupRecord (process env s u).1 u2 = lookupRecord s u2 := by
      intro u2 hm
      exact process_local env s u u2 (fun he => hu (he ▸ hm))
    refine ⟨?_, ?_, ?_, ?_⟩
    · simp only [processBatch, List.map_cons]
      rw [ih1]
    · intro u2 o hm
      simp only [processBatch] at hm
      rcases List.mem_cons.mp hm with hh | hh
      · rw [Prod.mk.injEq] at hh
        obtain ⟨rfl, rfl⟩ := hh
        rfl
      · have hmem : u2 ∈ rest := by
          have hh2 : u2 ∈ (processBatch env (process env s u).1 rest).2.map Prod.fst :=
            List.mem_map_of_mem Prod.fst hh
          rw [ih1] at hh2
          exact hh2
        rw [ih2 u2 o hh]
        exact congrArg Prod.fst
          ((process_congr env (process env s u).1 s u2 (hloc u2 hmem)).1)
    · intro u2 hm
      rcases List.mem_cons.mp hm with rfl | hm2
      · simp only [processBatch]
        exact processBatch_local env rest (process env s u2).1 u2 hu
      · simp only [processBatch]
        rw [ih3 u2 hm2]
        exact (process_congr env (process env s u).1 s u2 (hloc u2 hm2)).2
    · intro u2 hm hnone
      rcases List.mem_cons.mp hm with rfl | hm2
      · obtain ⟨r, hl, _, hterm, hout⟩ := process_fresh_lookup env s u2 hnone
        refine ⟨r, ?_, hterm, hout⟩
        simp only [processBatch]
        rw [processBatch_local env rest (process env s u2).1 u2 hu]
        exact hl
      · have hnone1 : lookupRecord (process env s u).1 u2 = none := by
          rw [hloc u2 hm2]
          exact hnone
        obtain ⟨r, hl, hterm, hout⟩ := ih4 u2 hm2 hnone1
        refine ⟨r, ?_, hterm, ?_⟩
        · simp only [processBatch]
          exact hl
        · rw [← congrArg Prod.fst
            ((process_congr env (process env s u).1 s u2 (hloc u2 hm2)).1)]
          exact hout

/-- Witness for C8: a 3-url batch whose middle url fails extraction
under `batchEnv`. -/
theorem batch_isolation_witness :
    batchUrls.Nodup ∧
    (((processBatch batchEnv [] batchUrls).2.map Prod.fst = batchUrls) ∧
    (∀ u o, (u, o) ∈ (processBatch batchEnv [] batchUrls).2 →
      o = (process batchEnv [] u).2.1) ∧
    (∀ u ∈ batchUrls, lookupRecord (processBatch batchEnv [] batchUrls).1 u =
      lookupRecord (process batchEnv [] u).1 u) ∧
    (∀ u ∈ batchUrls, lookupRecord ([] : Store) u = none →
      ∃ r, lookupRecord (processBatch batchEnv [] batchUrls).1 u = some r ∧
        (r.status = .complete ∨ r.status = .failed) ∧
        (process batchEnv [] u).2.1 = .processed r)) :=
  ⟨by decide, batch_isolation batchEnv [] batchUrls (by decide)⟩

end DataIntel
